import Mathlib

/-!
Verification development for the ai-cv-analyzer serverless handler
(api/processCV.js and its sibling iterations).  The JavaScript sources are
shallowly embedded below: strings are lists of characters, JavaScript numbers
appearing in the rate limiter are modelled as integers (all values involved
are integral and far below 2^53, so double arithmetic is exact), fallible
functions return Except values whose error constructors mirror the distinct
thrown error messages, and the external AI collaborator is an explicit
parameter of the handler models.
-/

/-- Strings are modelled as lists of characters. -/
abbrev Chars := List Char

/-- Character class of the JavaScript regex class s (ECMA-262 WhiteSpace plus
LineTerminator), which is also the set trimmed by String.trim. -/
def isJsSpace (c : Char) : Bool :=
  c.val = 32 ∨ c.val = 9 ∨ c.val = 10 ∨ c.val = 11 ∨ c.val = 12 ∨ c.val = 13 ∨
  c.val = 160 ∨ c.val = 0x1680 ∨ (0x2000 ≤ c.val ∧ c.val ≤ 0x200A) ∨
  c.val = 0x2028 ∨ c.val = 0x2029 ∨ c.val = 0x202F ∨ c.val = 0x205F ∨
  c.val = 0x3000 ∨ c.val = 0xFEFF

/-- The base64 alphabet of the validators: A-Z, a-z, 0-9, plus, slash, equals
(the class [A-Za-z0-9+/=] of the source regexes). -/
def isBase64Char (c : Char) : Bool :=
  (('A' ≤ c ∧ c ≤ 'Z') ∨ ('a' ≤ c ∧ c ≤ 'z') ∨ ('0' ≤ c ∧ c ≤ '9') ∨
   c = '+' ∨ c = '/' ∨ c = '=')

/-- The padding-free base64 alphabet [A-Za-z0-9+/] used by validatePDF. -/
def isPlainBase64Char (c : Char) : Bool :=
  (('A' ≤ c ∧ c ≤ 'Z') ∨ ('a' ≤ c ∧ c ≤ 'z') ∨ ('0' ≤ c ∧ c ≤ '9') ∨
   c = '+' ∨ c = '/')

/-- Word characters of the JavaScript regex class w: [A-Za-z0-9_]. -/
def isWordChar (c : Char) : Bool :=
  (('A' ≤ c ∧ c ≤ 'Z') ∨ ('a' ≤ c ∧ c ≤ 'z') ∨ ('0' ≤ c ∧ c ≤ '9') ∨ c = '_')

/-- Decimal digit. -/
def isDigitChar (c : Char) : Bool := '0' ≤ c ∧ c ≤ '9'

/-- String.trim of JavaScript: drop leading and trailing whitespace. -/
def trimChars (s : Chars) : Chars :=
  ((s.dropWhile isJsSpace).reverse.dropWhile isJsSpace).reverse

/-- JSON values, as produced by JSON.parse.  Numbers are modelled by integers:
every numeric literal in the inputs considered here is a small integer, on
which double-precision JSON.parse is exact. -/
inductive JsonValue where
  | null : JsonValue
  | bool : Bool → JsonValue
  | num : Int → JsonValue
  | str : Chars → JsonValue
  | arr : List JsonValue → JsonValue
  | obj : List (Chars × JsonValue) → JsonValue
deriving Repr

mutual

def JsonValue.beq : JsonValue → JsonValue → Bool
  | .null, .null => true
  | .bool a, .bool b => a = b
  | .num a, .num b => a = b
  | .str a, .str b => a = b
  | .arr a, .arr b => JsonValue.beqList a b
  | .obj a, .obj b => JsonValue.beqFields a b
  | _, _ => false

def JsonValue.beqList : List JsonValue → List JsonValue → Bool
  | [], [] => true
  | a :: as, b :: bs => JsonValue.beq a b && JsonValue.beqList as bs
  | _, _ => false

def JsonValue.beqFields : List (Chars × JsonValue) → List (Chars × JsonValue) → Bool
  | [], [] => true
  | (k, a) :: as, (l, b) :: bs => k = l && JsonValue.beq a b && JsonValue.beqFields as bs
  | _, _ => false

end

instance : BEq JsonValue := ⟨JsonValue.beq⟩

/-- Whitespace accepted between JSON tokens by JSON.parse: space, tab,
line feed, carriage return. -/
def isJsonWs (c : Char) : Bool :=
  c = ' ' ∨ c = '\t' ∨ c = '\n' ∨ c = '\r'

def skipJsonWs (s : Chars) : Chars := s.dropWhile isJsonWs

/-- Parse the remainder of a JSON string literal, after the opening quote.
Returns the decoded characters and the remaining input. -/
def parseStringRest : Chars → Option (Chars × Chars)
  | [] => none
  | c :: rest =>
    if c = '"' then some ([], rest)
    else if c = '\\' then
      match rest with
      | '"' :: r => (parseStringRest r).map (fun p => ('"' :: p.1, p.2))
      | '\\' :: r => (parseStringRest r).map (fun p => ('\\' :: p.1, p.2))
      | '/' :: r => (parseStringRest r).map (fun p => ('/' :: p.1, p.2))
      | 'b' :: r => (parseStringRest r).map (fun p => ('\x08' :: p.1, p.2))
      | 'f' :: r => (parseStringRest r).map (fun p => ('\x0c' :: p.1, p.2))
      | 'n' :: r => (parseStringRest r).map (fun p => ('\n' :: p.1, p.2))
      | 'r' :: r => (parseStringRest r).map (fun p => ('\r' :: p.1, p.2))
      | 't' :: r => (parseStringRest r).map (fun p => ('\t' :: p.1, p.2))
      | _ => none
    else if c.val < 32 then none
    else (parseStringRest rest).map (fun p => (c :: p.1, p.2))

/-- Accumulate a run of decimal digits into a natural number. -/
def parseDigits : Chars → Nat → Nat × Chars
  | c :: rest, acc =>
    if isDigitChar c then parseDigits rest (acc * 10 + (c.toNat - 48)) else (acc, c :: rest)
  | [], acc => (acc, [])

/-- Parse a JSON integer literal (optional minus sign followed by digits).
Fractional and exponent forms are outside the fragment exercised here. -/
def parseIntLit (s : Chars) : Option (Int × Chars) :=
  match s with
  | '-' :: c :: rest =>
    if isDigitChar c then
      some (-(Int.ofNat (parseDigits (c :: rest) 0).1), (parseDigits (c :: rest) 0).2)
    else none
  | c :: rest =>
    if isDigitChar c then
      some (Int.ofNat (parseDigits (c :: rest) 0).1, (parseDigits (c :: rest) 0).2)
    else none
  | [] => none

mutual

/-- Parse one JSON value; fuel bounds the recursion depth. -/
def parseValue : Nat → Chars → Option (JsonValue × Chars)
  | 0, _ => none
  | fuel + 1, s =>
    match skipJsonWs s with
    | [] => none
    | c :: rest =>
      if c = '{' then
        match skipJsonWs rest with
        | '}' :: r => some (.obj [], r)
        | r => parseFields fuel r []
      else if c = '[' then
        match skipJsonWs rest with
        | ']' :: r => some (.arr [], r)
        | r => parseItems fuel r []
      else if c = '"' then
        (parseStringRest rest).map (fun p => (.str p.1, p.2))
      else if c = 't' then
        match rest with
        | 'r' :: 'u' :: 'e' :: r => some (.bool true, r)
        | _ => none
      else if c = 'f' then
        match rest with
        | 'a' :: 'l' :: 's' :: 'e' :: r => some (.bool false, r)
        | _ => none
      else if c = 'n' then
        match rest with
        | 'u' :: 'l' :: 'l' :: r => some (.null, r)
        | _ => none
      else
        (parseIntLit (c :: rest)).map (fun p => (.num p.1, p.2))

/-- Parse the members of a JSON object, positioned at a key. -/
def parseFields : Nat → Chars → List (Chars × JsonValue) → Option (JsonValue × Chars)
  | 0, _, _ => none
  | fuel + 1, s, acc =>
    match s with
    | '"' :: rest =>
      match parseStringRest rest with
      | none => none
      | some (key, r1) =>
        match skipJsonWs r1 with
        | ':' :: r2 =>
          match parseValue fuel r2 with
          | none => none
          | some (v, r3) =>
            match skipJsonWs r3 with
            | ',' :: r4 => parseFields fuel (skipJsonWs r4) (acc ++ [(key, v)])
            | '}' :: r4 => some (.obj (acc ++ [(key, v)]), r4)
            | _ => none
        | _ => none
    | _ => none

/-- Parse the elements of a JSON array, positioned at an element. -/
def parseItems : Nat → Chars → List JsonValue → Option (JsonValue × Chars)
  | 0, _, _ => none
  | fuel + 1, s, acc =>
    match parseValue fuel s with
    | none => none
    | some (v, r1) =>
      match skipJsonWs r1 with
      | ',' :: r2 => parseItems fuel r2 (acc ++ [v])
      | ']' :: r2 => some (.arr (acc ++ [v]), r2)
      | _ => none

end

/-- Model of the JSON.parse builtin on the fragment used by the handlers:
it succeeds exactly when the whole input is a single JSON value surrounded
by JSON whitespace. -/
def jsonParse (s : Chars) : Option JsonValue :=
  match parseValue (s.length + 1) s with
  | some (v, rest) => if skipJsonWs rest = [] then some v else none
  | none => none

/-- The apostrophe character (single quote). -/
def sQuote : Char := Char.ofNat 39

/-- One pass of the global replace of (w+): by "$1": (quote bare object keys).
A maximal run of word characters immediately followed by a colon is wrapped
in double quotes; scanning resumes after the colon.  Fuel is the input
length; every step consumes at least one character. -/
def quoteKeysGo : Nat → Chars → Chars
  | 0, s => s
  | _, [] => []
  | fuel + 1, c :: rest =>
    if isWordChar c then
      match rest.dropWhile isWordChar with
      | ':' :: tail =>
        '"' :: (c :: rest.takeWhile isWordChar) ++ '"' :: ':' :: quoteKeysGo fuel tail
      | _ => (c :: rest.takeWhile isWordChar) ++ quoteKeysGo fuel (rest.dropWhile isWordChar)
    else c :: quoteKeysGo fuel rest

def quoteKeys (s : Chars) : Chars := quoteKeysGo s.length s

/-- Global replace of ,(s*[}\x5d]) by $1: drop a comma that is followed by
optional whitespace and a closing brace or bracket. -/
def removeTrailingCommasGo : Nat → Chars → Chars
  | 0, s => s
  | _, [] => []
  | fuel + 1, c :: rest =>
    if c = ',' then
      match rest.dropWhile isJsSpace with
      | b :: tail =>
        if b = '}' ∨ b = ']' then
          rest.takeWhile isJsSpace ++ b :: removeTrailingCommasGo fuel tail
        else ',' :: removeTrailingCommasGo fuel rest
      | [] => ',' :: removeTrailingCommasGo fuel rest
    else c :: removeTrailingCommasGo fuel rest

def removeTrailingCommas (s : Chars) : Chars := removeTrailingCommasGo s.length s

/-- Global replace of every single quote by a double quote. -/
def squoteToDquote (s : Chars) : Chars :=
  s.map (fun c => if c = sQuote then '"' else c)

/-- Attempt, at the current position, the pattern (s*:s*)'([^']*)' with its
groups: returns the captured colon context, the quoted content, and the
remaining input after the closing single quote. -/
def colonQuoteMatch (s : Chars) : Option (Chars × Chars × Chars) :=
  match s.dropWhile isJsSpace with
  | ':' :: r1 =>
    match r1.dropWhile isJsSpace with
    | q :: r2 =>
      if q = sQuote then
        if r2.any (fun c => c = sQuote) then
          some (s.takeWhile isJsSpace ++ ':' :: r1.takeWhile isJsSpace,
                r2.takeWhile (fun c => c ≠ sQuote),
                (r2.dropWhile (fun c => c ≠ sQuote)).tail)
        else none
      else none
    | [] => none
  | _ => none

/-- Global replace of (s*:s*)'([^']*)' by $1"$2": single-quoted values after
a colon get double quotes. -/
def quoteSingleAfterColonGo : Nat → Chars → Chars
  | 0, s => s
  | _, [] => []
  | fuel + 1, c :: rest =>
    match colonQuoteMatch (c :: rest) with
    | some (pre, content, tail) =>
      pre ++ '"' :: content ++ '"' :: quoteSingleAfterColonGo fuel tail
    | none => c :: quoteSingleAfterColonGo fuel rest

def quoteSingleAfterColon (s : Chars) : Chars := quoteSingleAfterColonGo s.length s

/-- Global replace of :s*(w+)(s*[,}]) by :"$1"$2: a bare run of word
characters standing as a value between a colon and a comma or closing brace
is wrapped in double quotes; the whitespace after the colon is dropped
because it is outside both capture groups. -/
def quoteBareScalarsGo : Nat → Chars → Chars
  | 0, s => s
  | _, [] => []
  | fuel + 1, c :: rest =>
    if c = ':' then
      match (rest.dropWhile isJsSpace).takeWhile isWordChar with
      | [] => ':' :: quoteBareScalarsGo fuel rest
      | w :: ws =>
        match ((rest.dropWhile isJsSpace).dropWhile isWordChar).dropWhile isJsSpace with
        | d :: tail =>
          if d = ',' ∨ d = '}' then
            ':' :: '"' :: (w :: ws) ++ '"' ::
              ((rest.dropWhile isJsSpace).dropWhile isWordChar).takeWhile isJsSpace ++
              d :: quoteBareScalarsGo fuel tail
          else ':' :: quoteBareScalarsGo fuel rest
        | [] => ':' :: quoteBareScalarsGo fuel rest
    else c :: quoteBareScalarsGo fuel rest

def quoteBareScalars (s : Chars) : Chars := quoteBareScalarsGo s.length s

/-- Global replace of every line feed by a space. -/
def newlinesToSpaces (s : Chars) : Chars :=
  s.map (fun c => if c = '\n' then ' ' else c)

/-- The repair pipeline of JsonUtils.safeJsonParse: quote bare keys, drop
trailing commas, turn single quotes into double quotes, requote values,
quote bare scalar values, collapse newlines, trim. -/
def jsonRepair (jsonString : Chars) : Chars :=
  trimChars (newlinesToSpaces (quoteBareScalars (quoteSingleAfterColon
    (squoteToDquote (removeTrailingCommas (quoteKeys jsonString))))))

inductive SafeParseErr where
  | parseFailed : SafeParseErr
deriving Repr, DecidableEq

/-- JsonUtils.safeJsonParse: strict parse first, then one repaired parse,
then failure. -/
def safeJsonParse (jsonString : Chars) : Except SafeParseErr JsonValue :=
  match jsonParse jsonString with
  | some v => .ok v
  | none =>
    match jsonParse (jsonRepair jsonString) with
    | some v => .ok v
    | none => .error .parseFailed

/-- The backtick character. -/
def backTick : Char := Char.ofNat 96

/-- Case-insensitive comparison of a fixed lowercase pattern against the
start of the input. -/
def headMatchesCI (pat : Chars) (s : Chars) : Bool :=
  (s.take pat.length).map Char.toLower = pat

/-- The anchored replace of a leading fence (three backticks, the tag json
case-insensitively, then whitespace) by the empty string. -/
def stripFenceHead (s : Chars) : Chars :=
  match s with
  | a :: b :: c :: rest =>
    if a = backTick ∧ b = backTick ∧ c = backTick ∧ headMatchesCI "json".data rest then
      (rest.drop 4).dropWhile isJsSpace
    else s
  | _ => s

/-- The replace of a trailing fence (optional whitespace then three
backticks, anchored at the end) by the empty string. -/
def stripFenceTail (s : Chars) : Chars :=
  match s.reverse with
  | a :: b :: c :: rest =>
    if a = backTick ∧ b = backTick ∧ c = backTick then
      (rest.dropWhile isJsSpace).reverse
    else s
  | _ => s

def hereIsTheJson : Chars := "here is the json".data

def hereSTheJson : Chars := "here".data ++ sQuote :: "s the json".data

/-- The anchored, case-insensitive replace of a leading natural-language
preamble (Here is the JSON or Here, apostrophe, s the JSON, then a run of
colons and whitespace) by the empty string. -/
def stripJsonPreamble (s : Chars) : Chars :=
  if headMatchesCI hereIsTheJson s then
    (s.drop hereIsTheJson.length).dropWhile (fun c => c = ':' ∨ isJsSpace c)
  else if headMatchesCI hereSTheJson s then
    (s.drop hereSTheJson.length).dropWhile (fun c => c = ':' ∨ isJsSpace c)
  else s

/-- The text JsonUtils.extractPureJson searches for braces: the input after
the initial trim, the fence strips, the preamble strip, and the final trim. -/
def strippedText (text : Chars) : Chars :=
  trimChars (stripJsonPreamble (stripFenceTail (stripFenceHead (trimChars text))))

/-- Index of the first occurrence of a character (String.indexOf). -/
def firstIdx (c : Char) : Chars → Option Nat
  | [] => none
  | x :: xs => if x = c then some 0 else (firstIdx c xs).map (· + 1)

/-- Index of the last occurrence of a character (String.lastIndexOf). -/
def lastIdx (c : Char) : Chars → Option Nat
  | [] => none
  | x :: xs =>
    match lastIdx c xs with
    | some j => some (j + 1)
    | none => if x = c then some 0 else none

/-- The guard of extractPureJson: true when the first opening brace is
missing, the last closing brace is missing, or they are out of order. -/
def jsonBoundsMissing (s : Chars) : Bool :=
  match firstIdx '{' s, lastIdx '}' s with
  | some firstBrace, some lastBrace => firstBrace ≥ lastBrace
  | _, _ => true

/-- The trimmed substring from the first opening brace to the last closing
brace inclusive (substring then trim in the source). -/
def braceSliceOf (s : Chars) : Chars :=
  match firstIdx '{' s, lastIdx '}' s with
  | some firstBrace, some lastBrace =>
    trimChars ((s.drop firstBrace).take (lastBrace + 1 - firstBrace))
  | _, _ => []

inductive ExtractErr where
  | emptyInput : ExtractErr
  | noJsonFound : ExtractErr
  | sliceNotJson : ExtractErr
deriving Repr, DecidableEq

/-- JsonUtils.extractPureJson: reject empty input, strip fences and
preamble, locate the brace-delimited span, and check that the trimmed
slice still starts and ends with braces. -/
def extractPureJson (text : Chars) : Except ExtractErr Chars :=
  if text = [] then .error .emptyInput
  else
    let jsonString := strippedText text
    if jsonBoundsMissing jsonString then .error .noJsonFound
    else
      let slice := braceSliceOf jsonString
      if slice.head? = some '{' ∧ slice.getLast? = some '}' then .ok slice
      else .error .sliceNotJson

inductive B64Err where
  | notNonEmptyString : B64Err
  | invalidEncoding : B64Err
  | payloadTooLarge : B64Err
deriving Repr, DecidableEq

/-- Length of the input with whitespace removed (the replace of s by the
empty string before the length is taken). -/
def usableLength (str : Chars) : Nat :=
  (str.filter (fun c => !(isJsSpace c))).length

/-- SecurityUtils.validateBase64: non-empty check, character-class check
against [A-Za-z0-9+/=s], then the size estimate.  The source compares
usableLength times 0.75 against maxPdfSizeMB times 1024 times 1024; both
sides are exact in double precision, so the comparison is the integer
comparison of 3 times usableLength with 4 times the byte ceiling. -/
def validateBase64 (maxPdfSizeMB : Nat) (str : Chars) : Except B64Err Unit :=
  if str = [] then .error .notNonEmptyString
  else if ¬ str.all (fun c => isBase64Char c || isJsSpace c) then .error .invalidEncoding
  else if 3 * usableLength str > 4 * (maxPdfSizeMB * 1024 * 1024) then .error .payloadTooLarge
  else .ok ()

/-- isBase64SizeValid of the first iteration: the same 0.75 estimate, but
computed over the raw string length, whitespace included. -/
def isBase64SizeValid (base64Str : Chars) (maxMB : Nat) : Bool :=
  decide (3 * base64Str.length ≤ 4 * (maxMB * 1024 * 1024))

def dataUrlMark : Chars := "data:application/pdf;base64,".data

def hasDataUrlMark (s : Chars) : Bool := s.take dataUrlMark.length = dataUrlMark

/-- The data-URL strip of validatePDF: when the marker is present, the
source splits on commas and keeps the second segment, which is the text
between the comma ending the marker and the next comma (or the end). -/
def pdfCleanOf (s : Chars) : Chars :=
  if hasDataUrlMark s then (s.drop dataUrlMark.length).takeWhile (fun c => c ≠ ',') else s

/-- Remove at most two trailing equals signs. -/
def dropAtMostTwoEq (s : Chars) : Chars :=
  match s.reverse with
  | '=' :: '=' :: rest => rest.reverse
  | '=' :: rest => rest.reverse
  | _ => s

/-- The anchored pattern [A-Za-z0-9+/]*={0,2}: after removing at most two
trailing equals signs, every character must be in the plain alphabet (a
third trailing equals sign then fails the class check). -/
def matchesStrictB64 (s : Chars) : Bool :=
  (dropAtMostTwoEq s).all isPlainBase64Char

/-- ASCII whitespace removed by the forgiving-base64 decode of atob. -/
def isAsciiWs (c : Char) : Bool :=
  c = ' ' ∨ c = '\t' ∨ c = '\n' ∨ c = '\x0c' ∨ c = '\r'

def b64DigitVal (c : Char) : Option Nat :=
  if 'A' ≤ c ∧ c ≤ 'Z' then some (c.toNat - 65)
  else if 'a' ≤ c ∧ c ≤ 'z' then some (c.toNat - 97 + 26)
  else if '0' ≤ c ∧ c ≤ '9' then some (c.toNat - 48 + 52)
  else if c = '+' then some 62
  else if c = '/' then some 63
  else none

/-- Reassemble 6-bit groups into bytes; a trailing group of two or three
sextets contributes one or two bytes. -/
def sextetsToBytes : List Nat → List Nat
  | a :: b :: c :: d :: rest =>
    (a * 4 + b / 16) :: ((b % 16) * 16 + c / 4) :: ((c % 4) * 64 + d) :: sextetsToBytes rest
  | [a, b] => [a * 4 + b / 16]
  | [a, b, c] => [a * 4 + b / 16, (b % 16) * 16 + c / 4]
  | _ => []

/-- Model of the atob builtin (forgiving-base64 decode): strip ASCII
whitespace, strip the padding when the length is a multiple of four,
reject a remainder of one, reject characters outside the alphabet, and
decode the sextets into bytes. -/
def atob (data : Chars) : Option (List Nat) :=
  let d1 := data.filter (fun c => !(isAsciiWs c))
  let d2 := if d1.length % 4 = 0 then dropAtMostTwoEq d1 else d1
  if d2.length % 4 = 1 then none
  else if ¬ d2.all (fun c => (b64DigitVal c).isSome) then none
  else some (sextetsToBytes (d2.filterMap b64DigitVal))

inductive PdfErr where
  | invalidB64Format : PdfErr
  | atobFailed : PdfErr
  | missingPdfHeader : PdfErr
  | missingEofMarker : PdfErr
  | fileTooLarge : PdfErr
  | emptyFile : PdfErr
deriving Repr, DecidableEq

def pdfHeaderBytes : List Nat := [37, 80, 68, 70]

def eofMarkerBytes : List Nat := [37, 37, 69, 79, 70]

def eofMarkerNlBytes : List Nat := [37, 37, 69, 79, 70, 10]

/-- Does the byte sequence contain the pattern as a contiguous run
(indexOf different from minus one). -/
def containsSeq (pat : List Nat) : List Nat → Bool
  | [] => pat == []
  | b :: rest => ((b :: rest).take pat.length == pat) || containsSeq pat rest

/-- SecurityUtils.validatePDF of the rate-limited iteration: data-URL strip,
strict base64 format check, atob decode, PDF header and EOF marker checks,
then the exact (length times 3 over 4) size checks. -/
def validatePDF (maxFileSizeMB : Nat) (base64String : Chars) : Except PdfErr Chars :=
  let cleanBase64 := pdfCleanOf base64String
  if ¬ matchesStrictB64 cleanBase64 then .error .invalidB64Format
  else
    match atob cleanBase64 with
    | none => .error .atobFailed
    | some binaryString =>
      if ¬ (binaryString.take 4 == pdfHeaderBytes) then .error .missingPdfHeader
      else if ¬ containsSeq eofMarkerBytes binaryString ∧
              ¬ containsSeq eofMarkerNlBytes binaryString then .error .missingEofMarker
      else if 3 * cleanBase64.length > 4 * (maxFileSizeMB * 1024 * 1024) then .error .fileTooLarge
      else if cleanBase64.length = 0 then .error .emptyFile
      else .ok cleanBase64

/-- A rate-limit entry: request count, window-start timestamp, block expiry.
JavaScript numbers here are timestamps and small counters, exact in double
precision, so integers model them faithfully. -/
structure ClientData where
  count : Int
  timestamp : Int
  blockedUntil : Int
deriving Repr, DecidableEq

/-- The rateLimitStore Map, as an insertion-ordered association list. -/
abbrev RLStore := List (String × ClientData)

def MAX_REQUESTS_PER_MINUTE : Int := 3

def WINDOW_MS : Int := 60000

def BLOCK_DURATION_MS : Int := 300000

def MAX_RETRIES : Nat := 2

/-- Map.get. -/
def storeGet : RLStore → String → Option ClientData
  | [], _ => none
  | (k, d) :: rest, ip => if k = ip then some d else storeGet rest ip

/-- Map.set: replace the entry in place when the key exists, append
otherwise. -/
def storeSet : RLStore → String → ClientData → RLStore
  | [], ip, d => [(ip, d)]
  | (k, e) :: rest, ip, d => if k = ip then (ip, d) :: rest else (k, e) :: storeSet rest ip d

/-- The eviction sweep at the start of applyRateLimit: delete every entry
whose stored timestamp lies before the window start, with no regard to its
block state. -/
def rlSweep (store : RLStore) (now : Int) : RLStore :=
  store.filter (fun kv => !(kv.2.timestamp < now - WINDOW_MS))

/-- Math.ceil of (blockedUntil - now) over 1000, for blockedUntil after now;
double-precision rounding cannot change the ceiling here. -/
def retryAfterSecondsOf (blockedUntil now : Int) : Int :=
  Int.ofNat (((blockedUntil - now).toNat + 999) / 1000)

inductive RateLimitOutcome where
  | admitted : RateLimitOutcome
  | blockedReject : Int → RateLimitOutcome
  | overLimitReject : RateLimitOutcome
deriving Repr, DecidableEq

/-- SecurityUtils.applyRateLimit: sweep, blocked check, window reset or
increment, store write, and the over-limit block. -/
def applyRateLimit (store : RLStore) (ip : String) (now : Int) : RLStore × RateLimitOutcome :=
  let store1 := rlSweep store now
  let clientData := (storeGet store1 ip).getD ⟨0, now, 0⟩
  if clientData.blockedUntil > now then
    (store1, .blockedReject (retryAfterSecondsOf clientData.blockedUntil now))
  else
    let clientData2 :=
      if clientData.timestamp < now - WINDOW_MS then
        { clientData with count := 1, timestamp := now }
      else
        { clientData with count := clientData.count + 1 }
    let store2 := storeSet store1 ip clientData2
    if clientData2.count > MAX_REQUESTS_PER_MINUTE then
      (storeSet store2 ip { clientData2 with blockedUntil := now + BLOCK_DURATION_MS },
       .overLimitReject)
    else (store2, .admitted)

/-- Run applyRateLimit over a sequence of call times for one client. -/
def rlRun (ip : String) : RLStore → List Int → RLStore × List RateLimitOutcome
  | store, [] => (store, [])
  | store, t :: ts =>
    let r1 := applyRateLimit store ip t
    let r2 := rlRun ip r1.1 ts
    (r2.1, r1.2 :: r2.2)

/-- The distinct ways one attempt of the AI loop can fail: the timeout race,
provider failures, and the in-attempt content failures (brace extraction,
JSON.parse, the quality validation). -/
inductive AttemptFailure where
  | timeoutFailure : AttemptFailure
  | networkFailure : AttemptFailure
  | overloadedFailure : AttemptFailure
  | noJsonInResponse : AttemptFailure
  | parseFailure : AttemptFailure
  | qualityCheckFailure : AttemptFailure
deriving Repr, DecidableEq

/-- The for loop over attempts: run the attempt; success returns at once,
any caught failure becomes lastError and the loop continues while attempts
remain; the loop ends by rethrowing lastError.  Returns the result and the
list of attempt numbers actually executed. -/
def retryGo (run : Nat → Except AttemptFailure JsonValue) :
    Nat → Nat → Option AttemptFailure →
    Except (Option AttemptFailure) JsonValue × List Nat
  | _, 0, lastError => (.error lastError, [])
  | attempt, fuel + 1, _ =>
    match run attempt with
    | .ok v => (.ok v, [attempt])
    | .error e =>
      let r := retryGo run (attempt + 1) fuel (some e)
      (r.1, attempt :: r.2)

/-- The retry loop of the rate-limited iteration, with its configured
attempt budget MAX_RETRIES = 2. -/
def retryLoop (run : Nat → Except AttemptFailure JsonValue) :
    Except (Option AttemptFailure) JsonValue × List Nat :=
  retryGo run 1 MAX_RETRIES none

def cvKey : Chars := "cvData".data

def jobKey : Chars := "jobData".data

def lookupField : List (Chars × JsonValue) → Chars → Option JsonValue
  | [], _ => none
  | (k, v) :: rest, key => if k = key then some v else lookupField rest key

/-- Property read on a parsed JSON value; only objects carry fields. -/
def getField (v : JsonValue) (k : Chars) : Option JsonValue :=
  match v with
  | .obj fields => lookupField fields k
  | _ => none

/-- JavaScript truthiness of a property read: undefined, null, false, 0 and
the empty string are falsy. -/
def jsTruthy : Option JsonValue → Bool
  | none => false
  | some .null => false
  | some (.bool b) => b
  | some (.num n) => n ≠ 0
  | some (.str s) => s ≠ []
  | some (.arr _) => true
  | some (.obj _) => true

/-- Property write on an object: overwrite in place, or append. -/
def setFieldList : List (Chars × JsonValue) → Chars → JsonValue → List (Chars × JsonValue)
  | [], key, v => [(key, v)]
  | (k, w) :: rest, key, v =>
    if k = key then (k, v) :: rest else (k, w) :: setFieldList rest key v

inductive StructureErr where
  | notAnObject : StructureErr
  | missingRequiredFields : StructureErr
deriving Repr, DecidableEq

/-- typeof x is the string object exactly for objects, arrays and null
among parsed JSON values. -/
def isObjectTypeof : JsonValue → Bool
  | .obj _ => true
  | .arr _ => true
  | .null => true
  | _ => false

/-- The response-structure validation of the strict iterations: reject a
falsy or non-object value, then require both top-level keys truthy. -/
def validateStructure (parsedData : JsonValue) : Except StructureErr Unit :=
  if ¬ jsTruthy (some parsedData) ∨ ¬ isObjectTypeof parsedData then .error .notAnObject
  else if ¬ jsTruthy (getField parsedData cvKey) ∨ ¬ jsTruthy (getField parsedData jobKey) then
    .error .missingRequiredFields
  else .ok ()

inductive AssignErr where
  | primitiveAssign : AssignErr
deriving Repr, DecidableEq

/-- The success tail of the JsonUtils iteration: a falsy cvData or jobData
is overwritten with an empty object and status 200 is emitted.  Property
writes on an array are legal but invisible to the JSON serializer; writes
on a primitive or null throw in strict mode. -/
def fillMissingTopKeys (parsedData : JsonValue) : Except AssignErr (Nat × JsonValue) :=
  match parsedData with
  | .obj fields =>
    let f1 := if ¬ jsTruthy (lookupField fields cvKey) then
                setFieldList fields cvKey (.obj []) else fields
    let f2 := if ¬ jsTruthy (lookupField f1 jobKey) then
                setFieldList f1 jobKey (.obj []) else f1
    .ok (200, .obj f2)
  | .arr xs => .ok (200, .arr xs)
  | _ => .error .primitiveAssign

/-- What a request produced: the HTTP status and whether generateContent
was reached. -/
structure PipelineResult where
  status : Nat
  modelInvoked : Bool
deriving Repr, DecidableEq

/-- The handler iteration whose single catch block maps every error that is
not the timeout sentinel to status 500 (validateBase64 runs inside that
try).  Everything from the generateContent call on is abstracted as the
postAI parameter; the conclusions proved about this model never depend on
it. -/
def handlerCatchAll (method : String) (bodyPresent : Bool) (pdfBase64 : Option Chars)
    (apiKeyPresent : Bool) (maxPdfSizeMB : Nat) (postAI : PipelineResult) : PipelineResult :=
  if method = "OPTIONS" then ⟨200, false⟩
  else if method ≠ "POST" then ⟨405, false⟩
  else if ¬ bodyPresent then ⟨400, false⟩
  else
    match pdfBase64 with
    | none => ⟨400, false⟩
    | some s =>
      if s = [] then ⟨400, false⟩
      else if ¬ apiKeyPresent then ⟨500, false⟩
      else
        match validateBase64 maxPdfSizeMB s with
        | .error _ => ⟨500, false⟩
        | .ok _ => postAI

/-- The sibling iteration that validates in a dedicated try block and
answers 400 on any validation failure, before the AI call. -/
def handlerScopedCatch (corsEnabled : Bool) (method : String) (pdfBase64 : Option Chars)
    (maxPdfSizeMB : Nat) (postAI : PipelineResult) : PipelineResult :=
  if corsEnabled ∧ method = "OPTIONS" then ⟨200, false⟩
  else if method ≠ "POST" then ⟨405, false⟩
  else
    match pdfBase64 with
    | none => ⟨400, false⟩
    | some s =>
      if s = [] then ⟨400, false⟩
      else
        match validateBase64 maxPdfSizeMB s with
        | .error _ => ⟨400, false⟩
        | .ok _ => postAI

/-- Modelled from the spec: the claim about the character-set check words
the stripping as removing the data-URL marker when present and keeping all
of the rest; this definition follows that wording, for comparison with the
validators above. -/
def specStripDataUrl (s : Chars) : Chars :=
  if hasDataUrlMark s then s.drop dataUrlMark.length else s

/-- The repair-pass example input of the specification: an object literal
with an unquoted key, a single-quoted value and a trailing comma. -/
def c2input : Chars :=
  "\x7bname: ".data ++ sQuote :: "Alice".data ++ sQuote :: ", age: 30,\x7d".data

/-- An attempt oracle whose first attempt fails with a JSON parse failure
and whose second attempt succeeds. -/
def parseThenOkRun : Nat → Except AttemptFailure JsonValue
  | 1 => .error .parseFailure
  | _ => .ok (.obj [])

/-- A data-URL-marked payload whose remainder is plain base64. -/
def c5input : Chars := dataUrlMark ++ "AAAA".data

/-- A payload at the 2 MB boundary: its whitespace-stripped length passes
the 0.75 estimate exactly, while its raw length exceeds it. -/
def c6str : Chars := List.replicate 2796202 'A' ++ [' ']

/-- A whitespace-free payload whose 0.75 estimate exceeds 5 MB by one
quarter byte. -/
def c9big : Chars := List.replicate 6990507 'A'

/-- A raw model text with prose around a JSON object. -/
def c8text : Chars := "pre \x7b\"k\": 1\x7d post".data

/-- A raw model text that is exactly a JSON object. -/
def c10text : Chars := "\x7b\"a\": 1\x7d".data

/-! Theorems about the embedded program. -/

/-- Claim C2, counterexample: on the repair example of the specification
the parse succeeds, but the age field comes back as the string 30, because
the bare-scalar replace quotes it; the result is therefore not deep-equal
to an object whose age is the number 30. -/
theorem safeJsonParse_repair_age_string_counterexample :
    safeJsonParse c2input =
      .ok (.obj [("name".data, .str "Alice".data), ("age".data, .str "30".data)]) ∧
    getField (.obj [("name".data, .str "Alice".data), ("age".data, .str "30".data)])
      "age".data = some (.str "30".data) ∧
    (JsonValue.str "30".data) ≠ (JsonValue.num 30) :=
  ⟨rfl, rfl, by simp⟩

/-- Claim C2 as amended: the strict parse of the example fails, the repair
pass rewrites it to an object text whose age value is quoted, and the
parsed result binds name to the string Alice and age to the string 30. -/
theorem safeJsonParse_repair_amended :
    jsonParse c2input = none ∧
    jsonRepair c2input = "\x7b\"name\": \"Alice\", \"age\":\"30\"\x7d".data ∧
    safeJsonParse c2input =
      .ok (.obj [("name".data, .str "Alice".data), ("age".data, .str "30".data)]) :=
  ⟨rfl, rfl, rfl⟩

/-- Claim C4, counterexample: a first attempt that fails with a JSON parse
failure is followed by a second attempt; content failures are retried. -/
theorem retryLoop_parse_failure_retried_counterexample :
    parseThenOkRun 1 = .error .parseFailure ∧
    retryLoop parseThenOkRun = (.ok (.obj []), [1, 2]) :=
  ⟨rfl, rfl⟩

/-- Claim C7, counterexample: the JsonUtils iteration answers 200 on a
parsed value that has no jobData key, silently installing an empty object
in its place. -/
theorem fillMissingTopKeys_defaults_counterexample :
    getField (.obj [(cvKey, .obj [])]) jobKey = none ∧
    fillMissingTopKeys (.obj [(cvKey, .obj [])]) =
      .ok (200, .obj [(cvKey, .obj []), (jobKey, .obj [])]) :=
  ⟨rfl, rfl⟩
/-- Claim C4 as amended: the loop treats every failure alike; any failed
first attempt, whatever its classification, is retried exactly once, the
attempt budget is MAX_RETRIES, a first-attempt success ends the loop at
once, and after two failures the second error is rethrown. -/
theorem retryLoop_retries_all_failures_amended :
    (∀ run, (retryLoop run).2.length ≤ MAX_RETRIES) ∧
    (∀ run v, run 1 = .ok v → retryLoop run = (.ok v, [1])) ∧
    (∀ run e, run 1 = .error e → (retryLoop run).2 = [1, 2]) ∧
    (∀ run e e2, run 1 = .error e → run 2 = .error e2 →
      (retryLoop run).1 = .error (some e2)) ∧
    (∀ run e v, run 1 = .error e → run 2 = .ok v → (retryLoop run).1 = .ok v) := by
  refine ⟨?_, ?_, ?_, ?_, ?_⟩
  · intro run
    rcases h1 : run 1 with e | v
    · rcases h2 : run 2 with e2 | v2 <;>
        simp [retryLoop, MAX_RETRIES, retryGo, h1, h2]
    · simp [retryLoop, MAX_RETRIES, retryGo, h1]
  · intro run v h1
    simp [retryLoop, MAX_RETRIES, retryGo, h1]
  · intro run e h1
    rcases h2 : run 2 with e2 | v2 <;>
      simp [retryLoop, MAX_RETRIES, retryGo, h1, h2]
  · intro run e e2 h1 h2
    simp [retryLoop, MAX_RETRIES, retryGo, h1, h2]
  · intro run e v h1 h2
    simp [retryLoop, MAX_RETRIES, retryGo, h1, h2]

/-- Witness for the amended claim C4, at an oracle that times out twice:
both attempts run and the second timeout is rethrown. -/
theorem retryLoop_retries_all_failures_amended_witness :
    (retryLoop (fun _ => .error .timeoutFailure)).1 =
      .error (some .timeoutFailure) :=
  retryLoop_retries_all_failures_amended.2.2.2.1 _ .timeoutFailure .timeoutFailure rfl rfl
theorem lookupField_setFieldList_self (l : List (Chars × JsonValue)) (k : Chars) (v : JsonValue) :
    lookupField (setFieldList l k v) k = some v := by
  induction l with
  | nil => simp [setFieldList, lookupField]
  | cons kv rest ih =>
    rcases kv with ⟨k1, v1⟩
    by_cases h : k1 = k
    · simp [setFieldList, lookupField, h]
    · simp [setFieldList, lookupField, h, ih]

theorem lookupField_setFieldList_ne (l : List (Chars × JsonValue)) (k k2 : Chars)
    (v : JsonValue) (h : k ≠ k2) :
    lookupField (setFieldList l k v) k2 = lookupField l k2 := by
  induction l with
  | nil => simp [setFieldList, lookupField, h]
  | cons kv rest ih =>
    rcases kv with ⟨k1, v1⟩
    by_cases h1 : k1 = k
    · subst h1
      simp [setFieldList, lookupField, h]
    · simp [setFieldList, lookupField, h1, ih]

/-- Claim C7 as amended: the strict iterations emit a success only when the
parsed value is an object with both top-level keys truthy; the JsonUtils
iteration instead answers 200 for every parsed object, silently installing
the empty object for a falsy cvData or jobData (never non-empty content)
and passing truthy ones through unchanged. -/
theorem top_level_keys_amended :
    (∀ p, validateStructure p = .ok () ↔
      (jsTruthy (some p) = true ∧ isObjectTypeof p = true ∧
       jsTruthy (getField p cvKey) = true ∧ jsTruthy (getField p jobKey) = true)) ∧
    (∀ fields, ∃ out,
      fillMissingTopKeys (.obj fields) = .ok (200, .obj out) ∧
      (jsTruthy (lookupField fields cvKey) = false →
        lookupField out cvKey = some (.obj [])) ∧
      (jsTruthy (lookupField fields cvKey) = true →
        lookupField out cvKey = lookupField fields cvKey) ∧
      (jsTruthy (lookupField fields jobKey) = false →
        lookupField out jobKey = some (.obj [])) ∧
      (jsTruthy (lookupField fields jobKey) = true →
        lookupField out jobKey = lookupField fields jobKey)) := by
  constructor
  · intro p
    unfold validateStructure
    split_ifs with h1 h2
    · constructor
      · intro h
        exact absurd h (by simp)
      · rintro ⟨ha, hb, _, _⟩
        rcases h1 with h | h
        · exact absurd ha h
        · exact absurd hb h
    · constructor
      · intro h
        exact absurd h (by simp)
      · rintro ⟨_, _, hc, hd⟩
        rcases h2 with h | h
        · exact absurd hc h
        · exact absurd hd h
    · push_neg at h1 h2
      exact ⟨fun _ => ⟨h1.1, h1.2, h2.1, h2.2⟩, fun _ => rfl⟩
  · intro fields
    have hkeys : cvKey ≠ jobKey := by decide
    by_cases hcv : jsTruthy (lookupField fields cvKey) = true
    · by_cases hjob : jsTruthy (lookupField fields jobKey) = true
      · exact ⟨fields, by simp [fillMissingTopKeys, hcv, hjob], by simp [hcv],
          fun _ => rfl, by simp [hjob], fun _ => rfl⟩
      · refine ⟨setFieldList fields jobKey (.obj []), ?_, ?_, ?_, ?_, ?_⟩
        · simp [fillMissingTopKeys, hcv, hjob]
        · simp [hcv]
        · intro _
          exact lookupField_setFieldList_ne _ _ _ _ (Ne.symm hkeys)
        · intro _
          exact lookupField_setFieldList_self _ _ _
        · simp [hjob]
    · by_cases hjob : jsTruthy (lookupField (setFieldList fields cvKey (.obj [])) jobKey) = true
      · refine ⟨setFieldList fields cvKey (.obj []), ?_, ?_, ?_, ?_, ?_⟩
        · simp [fillMissingTopKeys, hcv, hjob]
        · intro _
          exact lookupField_setFieldList_self _ _ _
        · simp [hcv]
        · intro hj
          rw [lookupField_setFieldList_ne _ _ _ _ hkeys] at hjob
          simp [hj] at hjob
        · intro _
          exact lookupField_setFieldList_ne _ _ _ _ hkeys
      · refine ⟨setFieldList (setFieldList fields cvKey (.obj [])) jobKey (.obj []), ?_, ?_, ?_, ?_, ?_⟩
        · simp [fillMissingTopKeys, hcv, hjob]
        · intro _
          rw [lookupField_setFieldList_ne _ _ _ _ (Ne.symm hkeys)]
          exact lookupField_setFieldList_self _ _ _
        · simp [hcv]
        · intro _
          exact lookupField_setFieldList_self _ _ _
        · intro hj
          rw [lookupField_setFieldList_ne _ _ _ _ hkeys] at hjob
          simp [hj] at hjob

/-- Witness for the amended claim C7: the strict validation succeeds on an
object carrying both keys as empty objects. -/
theorem top_level_keys_amended_witness :
    validateStructure (.obj [(cvKey, .obj []), (jobKey, .obj [])]) = .ok () :=
  (top_level_keys_amended.1 _).mpr (by decide)
/-- Claim C5, counterexample: a data-URL-marked payload whose remainder is
pure base64 satisfies the claimed character condition after stripping, yet
validateBase64 rejects it as InvalidEncoding, because it never strips the
marker and the marker itself contains characters outside the class. -/
theorem validateBase64_dataUrl_counterexample :
    (specStripDataUrl c5input).all (fun c => isBase64Char c || isJsSpace c) = true ∧
    validateBase64 5 c5input = .error .invalidEncoding :=
  ⟨rfl, rfl⟩

/-- Claim C5 as amended: validateBase64 does no data-URL stripping and
fails with InvalidEncoding exactly when its raw non-empty input has a
character outside the base64-or-whitespace class, while validatePDF does
strip the marker but then requires the stricter anchored class with no
whitespace and at most two trailing equals signs. -/
theorem charset_check_amended :
    (∀ maxMB str, validateBase64 maxMB str = .error .invalidEncoding ↔
      (str ≠ [] ∧ ¬ str.all (fun c => isBase64Char c || isJsSpace c) = true)) ∧
    (∀ maxMB str, validatePDF maxMB str = .error .invalidB64Format ↔
      matchesStrictB64 (pdfCleanOf str) = false) := by
  constructor
  · intro maxMB str
    by_cases h1 : str = []
    · simp [validateBase64, h1]
    · by_cases h2 : str.all (fun c => isBase64Char c || isJsSpace c) = true
      · have hfn : validateBase64 maxMB str =
            (if 3 * usableLength str > 4 * (maxMB * 1024 * 1024) then
              .error .payloadTooLarge else .ok ()) := by
          simp only [validateBase64]
          rw [if_neg h1, if_neg (by simp [h2])]
        rw [hfn]
        constructor
        · intro h
          split_ifs at h
          simp_all
        · rintro ⟨_, hbad⟩
          exact absurd h2 hbad
      · have hfn : validateBase64 maxMB str = .error .invalidEncoding := by
          simp only [validateBase64]
          rw [if_neg h1, if_pos (by simp [h2])]
        rw [hfn]
        simp [h1, h2]
  · intro maxMB str
    by_cases hm : matchesStrictB64 (pdfCleanOf str) = true
    · rcases hat : atob (pdfCleanOf str) with _ | bytes
      · simp [validatePDF, hm, hat]
      · simp [validatePDF, hm, hat]
        split_ifs <;> simp [hm]
    · simp [validatePDF, hm]

/-- Witness for the amended claim C5: an at-sign fails validateBase64 with
InvalidEncoding, and a space fails the strict format check of validatePDF. -/
theorem charset_check_amended_witness :
    validateBase64 5 ['@'] = .error .invalidEncoding ∧
    validatePDF 2 [' '] = .error .invalidB64Format :=
  ⟨(charset_check_amended.1 5 ['@']).mpr (by decide),
   (charset_check_amended.2 2 [' ']).mpr (by decide)⟩
theorem length_filter_replicate_pos (n : Nat) (c : Char) (p : Char → Bool) (hp : p c = true) :
    ((List.replicate n c).filter p).length = n := by
  induction n with
  | zero => rfl
  | succ n ih => simp [List.replicate_succ, List.filter, hp, ih]

theorem all_replicate_of (n : Nat) (c : Char) (p : Char → Bool) (hp : p c = true) :
    (List.replicate n c).all p = true := by
  induction n with
  | zero => rfl
  | succ n ih => simp [List.replicate_succ, hp, ih]

/-- Claim C6, counterexample: a payload of 2796202 letters and one space
has a whitespace-stripped estimate within the 2 MB ceiling, yet the
isBase64SizeValid variant rejects it, because it measures the raw length
with the whitespace included. -/
theorem isBase64SizeValid_whitespace_counterexample :
    3 * usableLength c6str ≤ 4 * (2 * 1024 * 1024) ∧
    isBase64SizeValid c6str 2 = false := by
  have hsp : (([' '] : Chars).filter fun c => !(isJsSpace c)) = [] := rfl
  have hu : usableLength c6str = 2796202 := by
    unfold usableLength c6str
    rw [List.filter_append, List.length_append,
      length_filter_replicate_pos _ _ _ (by decide), hsp]
    rfl
  have hl : c6str.length = 2796203 := by
    unfold c6str
    rw [List.length_append, List.length_replicate]
    rfl
  constructor
  · rw [hu]
    norm_num
  · unfold isBase64SizeValid
    rw [hl]
    rfl

/-- Claim C6 as amended: validateBase64 measures the whitespace-stripped
length and, on inputs passing its earlier checks, fails with
PayloadTooLarge exactly when the 0.75 estimate strictly exceeds the
ceiling, admitting equality; the isBase64SizeValid variant applies the
same strict comparison to the raw length, whitespace included. -/
theorem size_check_amended :
    (∀ maxMB str, str ≠ [] → str.all (fun c => isBase64Char c || isJsSpace c) = true →
      ((validateBase64 maxMB str = .error .payloadTooLarge ↔
        3 * usableLength str > 4 * (maxMB * 1024 * 1024)) ∧
       (validateBase64 maxMB str = .ok () ↔
        3 * usableLength str ≤ 4 * (maxMB * 1024 * 1024)))) ∧
    (∀ maxMB str, isBase64SizeValid str maxMB = true ↔
      3 * str.length ≤ 4 * (maxMB * 1024 * 1024)) := by
  constructor
  · intro maxMB str h1 h2
    have hfn : validateBase64 maxMB str =
        (if 3 * usableLength str > 4 * (maxMB * 1024 * 1024) then
          .error .payloadTooLarge else .ok ()) := by
      simp only [validateBase64]
      rw [if_neg h1, if_neg (by simp [h2])]
    rw [hfn]
    refine ⟨?_, ?_⟩
    · split_ifs with h3
      · exact iff_of_true rfl h3
      · exact iff_of_false (by simp) h3
    · split_ifs with h3
      · exact iff_of_false (by simp) (by omega)
      · exact iff_of_true rfl (by omega)
  · intro maxMB str
    unfold isBase64SizeValid
    exact ⟨fun h => of_decide_eq_true h, fun h => decide_eq_true h⟩

/-- Witness for the amended claim C6: with a zero ceiling a one-letter
payload overflows, and within a 1 MB ceiling it is admitted. -/
theorem size_check_amended_witness :
    validateBase64 0 ['A'] = .error .payloadTooLarge ∧
    isBase64SizeValid ['A'] 1 = true :=
  ⟨((size_check_amended.1 0 ['A'] (by decide) (by decide)).1).mpr (by decide),
   (size_check_amended.2 1 ['A']).mpr (by decide)⟩
theorem validateBase64_oversize_error (maxMB : Nat) (s : Chars) (h1 : s ≠ [])
    (h2 : 3 * usableLength s > 4 * (maxMB * 1024 * 1024)) :
    ∃ e, validateBase64 maxMB s = .error e := by
  by_cases hall : s.all (fun c => isBase64Char c || isJsSpace c) = true
  · refine ⟨.payloadTooLarge, ?_⟩
    simp only [validateBase64]
    rw [if_neg h1, if_neg (by simp [hall]), if_pos h2]
  · refine ⟨.invalidEncoding, ?_⟩
    simp only [validateBase64]
    rw [if_neg h1, if_pos (by simp [hall])]

/-- Claim C9, counterexample: an oversized payload is turned away before
the model is invoked, but the handler whose catch block is shared with the
AI path answers 500, not the claimed 400. -/
theorem handlerCatchAll_oversize_counterexample :
    3 * usableLength c9big > 4 * (5 * 1024 * 1024) ∧
    handlerCatchAll "POST" true (some c9big) true 5 ⟨200, true⟩ = ⟨500, false⟩ ∧
    (500 : Nat) ≠ 400 := by
  have husable : usableLength c9big = 6990507 := by
    unfold usableLength c9big
    rw [length_filter_replicate_pos _ _ _ (by decide)]
  have hlen : c9big.length = 6990507 := by
    unfold c9big
    rw [List.length_replicate]
  have hne : c9big ≠ [] := by
    intro h
    rw [h] at hlen
    exact absurd hlen (by decide)
  have hover : 3 * usableLength c9big > 4 * (5 * 1024 * 1024) := by
    rw [husable]
    norm_num
  obtain ⟨e, he⟩ := validateBase64_oversize_error 5 c9big hne hover
  refine ⟨hover, ?_, by decide⟩
  simp only [handlerCatchAll]
  rw [if_neg (by decide : ¬ ("POST" : String) = "OPTIONS")]
  rw [if_neg (by simp : ¬ ("POST" : String) ≠ "POST")]
  rw [if_neg (by simp : ¬ ¬ True)]
  rw [if_neg hne]
  rw [if_neg (by simp : ¬ ¬ True)]
  rw [he]

/-- Claim C9 as amended: a payload whose 0.75 estimate exceeds the ceiling
never reaches generateContent in either handler; the handler with the
scoped validation catch answers 400, while the handler whose catch block
is shared with the AI path answers 500. -/
theorem oversize_never_reaches_model_amended :
    (∀ maxMB s postAI, s ≠ [] → 3 * usableLength s > 4 * (maxMB * 1024 * 1024) →
      handlerCatchAll "POST" true (some s) true maxMB postAI = ⟨500, false⟩) ∧
    (∀ cors maxMB s postAI, s ≠ [] → 3 * usableLength s > 4 * (maxMB * 1024 * 1024) →
      handlerScopedCatch cors "POST" (some s) maxMB postAI = ⟨400, false⟩) := by
  constructor
  · intro maxMB s postAI h1 h2
    obtain ⟨e, he⟩ := validateBase64_oversize_error maxMB s h1 h2
    simp only [handlerCatchAll]
    rw [if_neg (by decide : ¬ ("POST" : String) = "OPTIONS")]
    rw [if_neg (by simp : ¬ ("POST" : String) ≠ "POST")]
    rw [if_neg (by simp : ¬ ¬ True)]
    rw [if_neg h1]
    rw [if_neg (by simp : ¬ ¬ True)]
    rw [he]
  · intro cors maxMB s postAI h1 h2
    obtain ⟨e, he⟩ := validateBase64_oversize_error maxMB s h1 h2
    simp only [handlerScopedCatch]
    rw [if_neg (by simp : ¬ (cors = true ∧ ("POST" : String) = "OPTIONS"))]
    rw [if_neg (by simp : ¬ ("POST" : String) ≠ "POST")]
    rw [if_neg h1]
    rw [he]

/-- Witness for the amended claim C9, with a zero ceiling and a one-letter
payload: both handlers reject without invoking the model. -/
theorem oversize_never_reaches_model_amended_witness :
    handlerCatchAll "POST" true (some ['A']) true 0 ⟨0, true⟩ = ⟨500, false⟩ ∧
    handlerScopedCatch true "POST" (some ['A']) 0 ⟨0, true⟩ = ⟨400, false⟩ :=
  ⟨oversize_never_reaches_model_amended.1 0 ['A'] _ (by decide) (by decide),
   oversize_never_reaches_model_amended.2 true 0 ['A'] _ (by decide) (by decide)⟩
theorem storeGet_filter_some (p : String × ClientData → Bool) (store : RLStore)
    (ip : String) (e : ClientData) (hget : storeGet store ip = some e)
    (hp : p (ip, e) = true) :
    storeGet (store.filter p) ip = some e := by
  induction store with
  | nil => simp [storeGet] at hget
  | cons kv rest ih =>
    rcases kv with ⟨k, d⟩
    by_cases hk : k = ip
    · subst hk
      rw [storeGet, if_pos rfl] at hget
      injection hget with hde
      subst hde
      rw [List.filter_cons, if_pos hp, storeGet, if_pos rfl]
    · rw [storeGet, if_neg hk] at hget
      rw [List.filter_cons]
      split_ifs with hpk
      · rw [storeGet, if_neg hk]
        exact ih hget
      · exact ih hget

theorem storeGet_filter_none (p : String × ClientData → Bool) (store : RLStore)
    (ip : String) (hall : ∀ d, (ip, d) ∈ store → p (ip, d) = false) :
    storeGet (store.filter p) ip = none := by
  induction store with
  | nil => rfl
  | cons kv rest ih =>
    rcases kv with ⟨k, d⟩
    have ihr := ih (fun d hd => hall d (List.mem_cons_of_mem _ hd))
    by_cases hk : k = ip
    · subst hk
      rw [List.filter_cons, if_neg, ]
      · exact ihr
      · rw [hall d (List.mem_cons_self _ _)]
        simp
    · rw [List.filter_cons]
      split_ifs with hpk
      · rw [storeGet, if_neg hk]
        exact ihr
      · exact ihr

theorem rlSweep_keeps (ip : String) (e : ClientData) (store : RLStore) (now : Int)
    (hget : storeGet store ip = some e) (hkeep : ¬ e.timestamp < now - WINDOW_MS) :
    storeGet (rlSweep store now) ip = some e := by
  apply storeGet_filter_some _ _ _ _ hget
  simp [hkeep]

theorem rlSweep_evicts_all (ip : String) (store : RLStore) (now : Int)
    (hall : ∀ d, (ip, d) ∈ store → d.timestamp < now - WINDOW_MS) :
    storeGet (rlSweep store now) ip = none := by
  apply storeGet_filter_none
  intro d hd
  simp [hall d hd]

theorem applyRateLimit_blocked (store : RLStore) (ip : String) (now : Int) (e : ClientData)
    (hget : storeGet store ip = some e) (hkeep : ¬ e.timestamp < now - WINDOW_MS)
    (hb : e.blockedUntil > now) :
    applyRateLimit store ip now =
      (rlSweep store now, .blockedReject (retryAfterSecondsOf e.blockedUntil now)) := by
  have hs := rlSweep_keeps ip e store now hget hkeep
  simp only [applyRateLimit, hs, Option.getD]
  rw [if_pos hb]

theorem applyRateLimit_all_expired (store : RLStore) (ip : String) (now : Int)
    (h0 : 0 ≤ now)
    (hall : ∀ d, (ip, d) ∈ store → d.timestamp < now - WINDOW_MS) :
    applyRateLimit store ip now =
      (storeSet (rlSweep store now) ip ⟨1, now, 0⟩, .admitted) := by
  have hs := rlSweep_evicts_all ip store now hall
  simp only [applyRateLimit, hs, Option.getD]
  rw [if_neg (by omega : ¬ (0 : Int) > now)]
  rw [if_neg (by simp only [WINDOW_MS]; omega : ¬ now < now - WINDOW_MS)]
  rw [if_neg (by simp only [MAX_REQUESTS_PER_MINUTE]; omega : ¬ (0 : Int) + 1 > MAX_REQUESTS_PER_MINUTE)]
  norm_num

theorem applyRateLimit_singleton_step (ip : String) (c ts bu now : Int)
    (hkeep : ¬ ts < now - WINDOW_MS) (hnb : ¬ bu > now)
    (hcnt : ¬ c + 1 > MAX_REQUESTS_PER_MINUTE) :
    applyRateLimit [(ip, ⟨c, ts, bu⟩)] ip now = ([(ip, ⟨c + 1, ts, bu⟩)], .admitted) := by
  have hsw : rlSweep [(ip, ⟨c, ts, bu⟩)] now = [(ip, ⟨c, ts, bu⟩)] := by
    simp [rlSweep, List.filter_cons, hkeep]
  have hget : storeGet [(ip, (⟨c, ts, bu⟩ : ClientData))] ip = some ⟨c, ts, bu⟩ := by
    simp [storeGet]
  simp only [applyRateLimit, hsw, hget, Option.getD]
  rw [if_neg hnb, if_neg hkeep, if_neg hcnt]
  simp [storeSet]

theorem applyRateLimit_singleton_over (ip : String) (c ts bu now : Int)
    (hkeep : ¬ ts < now - WINDOW_MS) (hnb : ¬ bu > now)
    (hcnt : c + 1 > MAX_REQUESTS_PER_MINUTE) :
    applyRateLimit [(ip, ⟨c, ts, bu⟩)] ip now =
      ([(ip, ⟨c + 1, ts, now + BLOCK_DURATION_MS⟩)], .overLimitReject) := by
  have hsw : rlSweep [(ip, ⟨c, ts, bu⟩)] now = [(ip, ⟨c, ts, bu⟩)] := by
    simp [rlSweep, List.filter_cons, hkeep]
  have hget : storeGet [(ip, (⟨c, ts, bu⟩ : ClientData))] ip = some ⟨c, ts, bu⟩ := by
    simp [storeGet]
  simp only [applyRateLimit, hsw, hget, Option.getD]
  rw [if_neg hnb, if_neg hkeep, if_pos hcnt]
  simp [storeSet]
/-- Claim C1, counterexample: after the fourth call at time 0 the client
entry is blocked until 300000, yet a call at 60001 — strictly before
blockedUntil — is admitted, because the eviction sweep deletes the blocked
entry as soon as its window has expired. -/
theorem applyRateLimit_block_evicted_counterexample :
    (rlRun "client" [] [0, 0, 0, 0]).2 =
      [.admitted, .admitted, .admitted, .overLimitReject] ∧
    storeGet (rlRun "client" [] [0, 0, 0, 0]).1 "client" = some ⟨4, 0, 300000⟩ ∧
    (60001 : Int) < 300000 ∧
    (applyRateLimit (rlRun "client" [] [0, 0, 0, 0]).1 "client" 60001).2 = .admitted :=
  ⟨rfl, rfl, by norm_num, rfl⟩

/-- Claim C1 as amended: a blocked entry that is still within its own
window rejects the call with retryAfterSeconds equal to the ceiling of the
remaining block time in seconds and is left untouched; that value never
increases as the call time advances and strictly decreases across a full
second; but the eviction sweep removes every entry whose window has
expired with no regard to its block state, so a blocked client is
evaluated as a fresh window at the first call more than WINDOW_MS after
its stored window start, even strictly before blockedUntil. -/
theorem applyRateLimit_block_behavior_amended :
    (∀ store ip now e, storeGet store ip = some e → now < e.blockedUntil →
      ¬ e.timestamp < now - WINDOW_MS →
      applyRateLimit store ip now =
        (rlSweep store now, .blockedReject (retryAfterSecondsOf e.blockedUntil now)) ∧
      storeGet (applyRateLimit store ip now).1 ip = some e) ∧
    (∀ b now1 now2, now1 ≤ now2 →
      retryAfterSecondsOf b now2 ≤ retryAfterSecondsOf b now1) ∧
    (∀ b now1 now2, now2 < b → now1 + 1000 ≤ now2 →
      retryAfterSecondsOf b now2 < retryAfterSecondsOf b now1) ∧
    (∀ store now k d, (k, d) ∈ rlSweep store now ↔
      ((k, d) ∈ store ∧ ¬ d.timestamp < now - WINDOW_MS)) ∧
    (∀ store ip now, 0 ≤ now →
      (∀ d, (ip, d) ∈ store → d.timestamp < now - WINDOW_MS) →
      applyRateLimit store ip now =
        (storeSet (rlSweep store now) ip ⟨1, now, 0⟩, .admitted)) := by
  refine ⟨?_, ?_, ?_, ?_, ?_⟩
  · intro store ip now e hget hb hkeep
    have heq := applyRateLimit_blocked store ip now e hget hkeep hb
    refine ⟨heq, ?_⟩
    rw [heq]
    exact rlSweep_keeps ip e store now hget hkeep
  · intro b now1 now2 h
    unfold retryAfterSecondsOf
    have hx : (b - now2).toNat ≤ (b - now1).toNat := by omega
    exact Int.ofNat_le.mpr (Nat.div_le_div_right (by omega))
  · intro b now1 now2 hb hsep
    unfold retryAfterSecondsOf
    apply Int.ofNat_lt.mpr
    have hx : (b - now2).toNat + 1000 ≤ (b - now1).toNat := by omega
    calc ((b - now2).toNat + 999) / 1000
        < ((b - now2).toNat + 999) / 1000 + 1 := Nat.lt_succ_self _
      _ = ((b - now2).toNat + 999 + 1000) / 1000 :=
          (Nat.add_div_right _ (by norm_num)).symm
      _ ≤ ((b - now1).toNat + 999) / 1000 := Nat.div_le_div_right (by omega)
  · intro store now k d
    simp [rlSweep, List.mem_filter]
  · intro store ip now h0 hall
    exact applyRateLimit_all_expired store ip now h0 hall

/-- Witness for the amended claim C1: a blocked in-window entry at time
10000 is rejected with 290 seconds to wait and is left in the store. -/
theorem applyRateLimit_block_behavior_amended_witness :
    applyRateLimit [("x", ⟨4, 0, 300000⟩)] "x" 10000 =
      (rlSweep [("x", ⟨4, 0, 300000⟩)] 10000,
       .blockedReject (retryAfterSecondsOf 300000 10000)) ∧
    storeGet (applyRateLimit [("x", ⟨4, 0, 300000⟩)] "x" 10000).1 "x" =
      some ⟨4, 0, 300000⟩ :=
  applyRateLimit_block_behavior_amended.1 [("x", ⟨4, 0, 300000⟩)] "x" 10000
    ⟨4, 0, 300000⟩ (by decide) (by norm_num) (by norm_num [WINDOW_MS])

/-- Claim C3, counterexample: after three admitted calls at time 0, a call
made exactly WINDOW_MS after the window start is rejected and blocks the
client, rather than being admitted with the counter reset to 1. -/
theorem applyRateLimit_exact_window_counterexample :
    (rlRun "c" [] [0, 0, 0]).2 = [.admitted, .admitted, .admitted] ∧
    storeGet (rlRun "c" [] [0, 0, 0]).1 "c" = some ⟨3, 0, 0⟩ ∧
    (0 : Int) + WINDOW_MS = 60000 ∧
    (applyRateLimit (rlRun "c" [] [0, 0, 0]).1 "c" 60000).2 = .overLimitReject :=
  ⟨rfl, rfl, rfl, rfl⟩

/-- Claim C3 as amended: with ceiling 3 and window 60000 ms, three calls
from a fresh client inside one window are admitted, the fourth call no
later than WINDOW_MS after the window start is rejected and blocks the
client, and a call strictly more than WINDOW_MS after the window start is
admitted with the stored counter reset to 1; at exactly WINDOW_MS the call
still counts against the old window. -/
theorem applyRateLimit_window_amended (ip : String) (t1 t2 t3 t4 t5 : Int)
    (h0 : 0 ≤ t1) (h12 : t1 ≤ t2) (h23 : t2 ≤ t3) (h34 : t3 ≤ t4)
    (h4w : t4 ≤ t1 + WINDOW_MS) (h5 : t1 + WINDOW_MS < t5) :
    applyRateLimit [] ip t1 = ([(ip, ⟨1, t1, 0⟩)], .admitted) ∧
    applyRateLimit [(ip, ⟨1, t1, 0⟩)] ip t2 = ([(ip, ⟨2, t1, 0⟩)], .admitted) ∧
    applyRateLimit [(ip, ⟨2, t1, 0⟩)] ip t3 = ([(ip, ⟨3, t1, 0⟩)], .admitted) ∧
    applyRateLimit [(ip, ⟨3, t1, 0⟩)] ip t4 =
      ([(ip, ⟨4, t1, t4 + BLOCK_DURATION_MS⟩)], .overLimitReject) ∧
    applyRateLimit [(ip, ⟨3, t1, 0⟩)] ip t5 = ([(ip, ⟨1, t5, 0⟩)], .admitted) := by
  have hW : WINDOW_MS = 60000 := rfl
  have hM : MAX_REQUESTS_PER_MINUTE = 3 := rfl
  refine ⟨?_, ?_, ?_, ?_, ?_⟩
  · have h := applyRateLimit_all_expired [] ip t1 h0 (by intro d hd; cases hd)
    rw [h]
    rfl
  · have h := applyRateLimit_singleton_step ip 1 t1 0 t2
      (by omega) (by omega) (by omega)
    rw [h]
    norm_num
  · have h := applyRateLimit_singleton_step ip 2 t1 0 t3
      (by omega) (by omega) (by omega)
    rw [h]
    norm_num
  · have h := applyRateLimit_singleton_over ip 3 t1 0 t4
      (by omega) (by omega) (by omega)
    rw [h]
    norm_num
  · have h := applyRateLimit_all_expired [(ip, ⟨3, t1, 0⟩)] ip t5 (by omega)
      (by
        intro d hd
        rcases List.mem_singleton.mp hd with h
        have : d = ⟨3, t1, 0⟩ := congrArg Prod.snd h
        rw [this]
        show t1 < t5 - WINDOW_MS
        omega)
    have ht : t1 < t5 - WINDOW_MS := by omega
    have hsw : rlSweep [(ip, (⟨3, t1, 0⟩ : ClientData))] t5 = [] := by
      simp [rlSweep, List.filter_cons, ht]
    rw [h, hsw]
    rfl

/-- Witness for the amended claim C3, on the concrete call times 0, 1, 2,
3 and 70000. -/
theorem applyRateLimit_window_amended_witness :
    applyRateLimit [] "w" 0 = ([("w", ⟨1, 0, 0⟩)], .admitted) ∧
    applyRateLimit [("w", ⟨1, 0, 0⟩)] "w" 1 = ([("w", ⟨2, 0, 0⟩)], .admitted) ∧
    applyRateLimit [("w", ⟨2, 0, 0⟩)] "w" 2 = ([("w", ⟨3, 0, 0⟩)], .admitted) ∧
    applyRateLimit [("w", ⟨3, 0, 0⟩)] "w" 3 =
      ([("w", ⟨4, 0, 3 + BLOCK_DURATION_MS⟩)], .overLimitReject) ∧
    applyRateLimit [("w", ⟨3, 0, 0⟩)] "w" 70000 = ([("w", ⟨1, 70000, 0⟩)], .admitted) :=
  applyRateLimit_window_amended "w" 0 1 2 3 70000 (by norm_num) (by norm_num)
    (by norm_num) (by norm_num) (by norm_num [WINDOW_MS]) (by norm_num [WINDOW_MS])
theorem firstIdx_head (c : Char) (s : Chars) (i : Nat) (h : firstIdx c s = some i) :
    (s.drop i).head? = some c := by
  induction s generalizing i with
  | nil => simp [firstIdx] at h
  | cons a as ih =>
    rw [firstIdx] at h
    split_ifs at h with ha
    · injection h with hi
      subst hi
      simp [ha]
    · rcases hf : firstIdx c as with _ | m
      · rw [hf] at h
        simp at h
      · rw [hf] at h
        simp at h
        subst h
        simpa using ih m hf

theorem lastIdx_head (c : Char) (s : Chars) (j : Nat) (h : lastIdx c s = some j) :
    (s.drop j).head? = some c := by
  induction s generalizing j with
  | nil => simp [lastIdx] at h
  | cons a as ih =>
    rw [lastIdx] at h
    rcases hl : lastIdx c as with _ | m
    · rw [hl] at h
      split_ifs at h with ha
      · injection h with hj
        subst hj
        simp [ha]
    · rw [hl] at h
      injection h with hj
      subst hj
      simpa using ih m hl

theorem head_take_pos (l : Chars) (n : Nat) (hn : 0 < n) : (l.take n).head? = l.head? := by
  cases l with
  | nil => simp
  | cons a as =>
    cases n with
    | zero => omega
    | succ m => simp

theorem getLast_take_succ (s : Chars) (j : Nat) (c : Char)
    (h : (s.drop j).head? = some c) : (s.take (j + 1)).getLast? = some c := by
  induction s generalizing j with
  | nil => simp at h
  | cons a as ih =>
    cases j with
    | zero =>
      simp at h
      simp [h]
    | succ m =>
      have h2 := ih m (by simpa using h)
      have hne : as.take (m + 1) ≠ [] := by
        intro hemp
        rw [hemp] at h2
        simp at h2
      rw [List.take_succ_cons]
      cases hl : as.take (m + 1) with
      | nil => exact absurd hl hne
      | cons b bs =>
        rw [hl] at h2
        rw [List.getLast?_cons_cons]
        exact h2

theorem dropWhile_head_false (p : Char → Bool) (l : Chars) (c : Char)
    (hh : l.head? = some c) (hp : p c = false) : l.dropWhile p = l := by
  cases l with
  | nil => simp at hh
  | cons a as =>
    injection hh with hac
    subst hac
    simp [List.dropWhile, hp]

theorem trimChars_id (l : Chars) (a b : Char) (hh : l.head? = some a)
    (hg : l.getLast? = some b) (ha : isJsSpace a = false) (hb : isJsSpace b = false) :
    trimChars l = l := by
  unfold trimChars
  rw [dropWhile_head_false _ _ _ hh ha]
  rw [dropWhile_head_false _ _ _ (by rw [List.head?_reverse]; exact hg) hb]
  exact List.reverse_reverse l

theorem extractPureJson_good (text : Chars) (h : text ≠ [])
    (hb : jsonBoundsMissing (strippedText text) = false) :
    extractPureJson text = .ok (braceSliceOf (strippedText text)) := by
  rcases hf : firstIdx '{' (strippedText text) with _ | i
  · rw [jsonBoundsMissing, hf] at hb
    simp at hb
  rcases hl : lastIdx '}' (strippedText text) with _ | j
  · rw [jsonBoundsMissing, hf, hl] at hb
    simp at hb
  have hij : i < j := by
    rw [jsonBoundsMissing, hf, hl] at hb
    simp at hb
    omega
  have hslice : braceSliceOf (strippedText text) =
      trimChars (((strippedText text).drop i).take (j + 1 - i)) := by
    rw [braceSliceOf, hf, hl]
  have hh : (((strippedText text).drop i).take (j + 1 - i)).head? = some '{' := by
    rw [head_take_pos _ _ (by omega)]
    exact firstIdx_head _ _ _ hf
  have hg : (((strippedText text).drop i).take (j + 1 - i)).getLast? = some '}' := by
    have hj : (((strippedText text).drop i).drop (j - i)).head? = some '}' := by
      rw [List.drop_drop]
      rw [show i + (j - i) = j by omega]
      exact lastIdx_head _ _ _ hl
    have hx := getLast_take_succ _ _ _ hj
    rwa [show j - i + 1 = j + 1 - i by omega] at hx
  have htrim := trimChars_id _ _ _ hh hg (by decide) (by decide)
  rw [extractPureJson, if_neg h]
  simp only [hb, Bool.false_eq_true, reduceIte]
  rw [hslice, htrim, if_pos ⟨hh, hg⟩]

/-- Claim C8 (confirmed): for a non-empty raw model text, extractPureJson
fails with NoJsonFound exactly when, in the fence- and preamble-stripped
text, the first opening brace or the last closing brace is missing or the
first lies at or after the last; otherwise it returns the brace-delimited
slice. -/
theorem extractPureJson_noJsonFound_iff (text : Chars) (h : text ≠ []) :
    (extractPureJson text = .error .noJsonFound ↔
      jsonBoundsMissing (strippedText text) = true) ∧
    (jsonBoundsMissing (strippedText text) = false →
      extractPureJson text = .ok (braceSliceOf (strippedText text))) := by
  constructor
  · constructor
    · intro he
      by_contra hbad
      rw [Bool.not_eq_true] at hbad
      rw [extractPureJson_good text h hbad] at he
      exact absurd he (by simp)
    · intro hbad
      rw [extractPureJson, if_neg h]
      simp only [hbad, reduceIte]
  · exact extractPureJson_good text h

/-- Witness for claim C8, on a model text with prose around one object. -/
theorem extractPureJson_noJsonFound_iff_witness :
    (extractPureJson c8text = .error .noJsonFound ↔
      jsonBoundsMissing (strippedText c8text) = true) ∧
    (jsonBoundsMissing (strippedText c8text) = false →
      extractPureJson c8text = .ok (braceSliceOf (strippedText c8text))) :=
  extractPureJson_noJsonFound_iff c8text (by decide)

/-- Claim C10 (confirmed): whenever extractPureJson returns normally, the
returned string is non-empty, starts with an opening brace and ends with a
closing brace. -/
theorem extractPureJson_ok_shape (text : Chars) (out : Chars)
    (h : extractPureJson text = .ok out) :
    out ≠ [] ∧ out.head? = some '{' ∧ out.getLast? = some '}' := by
  simp only [extractPureJson] at h
  split_ifs at h with h1 h2 h3
  · injection h with hout
    subst hout
    refine ⟨?_, h3.1, h3.2⟩
    intro hemp
    rw [hemp] at h3
    simp at h3

/-- Witness for claim C10, on a text that is exactly one JSON object. -/
theorem extractPureJson_ok_shape_witness :
    c10text ≠ [] ∧ c10text.head? = some '{' ∧ c10text.getLast? = some '}' :=
  extractPureJson_ok_shape c10text c10text (by rfl)
